import Mathlib

/-!
Shallow embedding of the BlindBidAuction contract
(src/contracts/BlindBidAuction.sol).

Addresses, timestamps, salt hashes and lot ids are modelled as `Nat`
(`0` plays the role of the zero address / zero `bytes32`).  Encrypted
values (`euint64`, `euint32`, `ebool`) are modelled by their cleartexts:
`FHE.gt` is `Nat` comparison, `FHE.select` is a conditional, and
`FHE.fromExternal` yields the cleartext bid value (proof verification
failures are out of scope).  The FHE ACL calls (`FHE.allow*`) have no
cleartext-observable effect and are omitted.  Each external function
becomes a Lean function from a pre-state (plus `msg.sender` and
`block.timestamp`) to `Except Err` of a post-state; a revert is an
`Except.error`, which by construction leaves the caller's state
untouched (all-or-nothing semantics).
-/

namespace BlindBidAuction

/-- The named custom errors of the contract, one constructor per
`error` declaration. -/
inductive Err where
  | NotOwner
  | LotNotFound
  | NotCurator
  | InvalidWindow
  | AuctionClosed
  | OutsideBiddingWindow
  | SaltAlreadyUsed
  | BidAlreadySubmitted
  | EmptySalt
  | GatewayNotConfigured
  | RevealAlreadyRequested
  | RevealNotRequested
  | UnauthorizedGateway
  | AuctionNotClosed
  | AlreadySettled
deriving DecidableEq

/-- The `Lot` struct.  Encrypted fields hold modelled cleartexts. -/
structure Lot where
  curator : Nat
  startTime : Nat
  endTime : Nat
  closed : Bool
  revealRequested : Bool
  settled : Bool
  bidCount : Nat
  encryptedReserve : Nat
  encryptedWinningBid : Nat
  encryptedWinningIndex : Nat
  winner : Nat
  revealedAmount : Nat
  metadataURI : String
deriving DecidableEq

/-- The `BidEnvelope` struct. -/
structure BidEnvelope where
  amount : Nat
  saltHash : Nat
  submittedAt : Nat
  index : Nat
  isSealed : Bool
deriving DecidableEq

/-- Solidity storage default for a `Lot` slot (all fields zero). -/
def defaultLot : Lot :=
  { curator := 0, startTime := 0, endTime := 0, closed := false,
    revealRequested := false, settled := false, bidCount := 0,
    encryptedReserve := 0, encryptedWinningBid := 0,
    encryptedWinningIndex := 0, winner := 0, revealedAmount := 0,
    metadataURI := "" }

/-- Solidity storage default for a `BidEnvelope` slot. -/
def defaultEnvelope : BidEnvelope :=
  { amount := 0, saltHash := 0, submittedAt := 0, index := 0,
    isSealed := false }

/-- Pointwise update of a one-key mapping. -/
def upd1 {α : Type} (f : Nat → α) (i : Nat) (v : α) : Nat → α :=
  fun j => if j = i then v else f j

/-- Pointwise update of a two-key mapping. -/
def upd2 {α : Type} (f : Nat → Nat → α) (i j : Nat) (v : α) :
    Nat → Nat → α :=
  fun i' j' => if i' = i ∧ j' = j then v else f i' j'

/-- The whole contract storage: the scalar slots plus the five
mappings/arrays declared at contract level.  Solidity mappings are total
with default values, hence plain functions here. -/
structure ContractState where
  nextLotId : Nat
  owner : Nat
  gatewayOperator : Nat
  lots : Nat → Lot
  bids : Nat → Nat → BidEnvelope
  saltRegistry : Nat → Nat → Bool
  indexToBidder : Nat → Nat → Nat
  lotParticipants : Nat → List Nat
  lotIds : List Nat

/-- State right after the constructor runs with `msg.sender = deployer`:
`_nextLotId = 1`, `owner = deployer`, everything else default. -/
def initState (deployer : Nat) : ContractState :=
  { nextLotId := 1, owner := deployer, gatewayOperator := 0,
    lots := fun _ => defaultLot,
    bids := fun _ _ => defaultEnvelope,
    saltRegistry := fun _ _ => false,
    indexToBidder := fun _ _ => 0,
    lotParticipants := fun _ => [],
    lotIds := [] }

/-- Cleartext model of `FHE.gt` on `euint64`. -/
def fheGt (a b : Nat) : Bool := decide (b < a)

/-- Cleartext model of `FHE.select`. -/
def fheSelect (c : Bool) (a b : Nat) : Nat := if c then a else b

/-- Success post-state of `createLot`: the freshly initialised lot
record written at the allocated id (winning ciphertexts start as
encrypted zero). -/
def createLotUpd (s : ContractState) (sender : Nat)
    (metadataURI : String) (startTime endTime reserveValue : Nat) :
    ContractState :=
  let lotId := s.nextLotId
  let lot : Lot :=
    { curator := sender, startTime := startTime, endTime := endTime,
      closed := false, revealRequested := false, settled := false,
      bidCount := 0, encryptedReserve := reserveValue,
      encryptedWinningBid := 0, encryptedWinningIndex := 0,
      winner := 0, revealedAmount := 0, metadataURI := metadataURI }
  { s with nextLotId := lotId + 1,
           lots := upd1 s.lots lotId lot,
           lotIds := s.lotIds ++ [lotId] }

/-- `createLot`: window validation, then allocation of the next lot id
and initialisation of the lot record.  Returns the new state and the
allocated `lotId`. -/
def createLot (s : ContractState) (sender now : Nat)
    (metadataURI : String) (startTime endTime reserveValue : Nat) :
    Except Err (ContractState × Nat) :=
  if endTime ≤ startTime ∨ endTime ≤ now then
    .error .InvalidWindow
  else
    .ok (createLotUpd s sender metadataURI startTime endTime reserveValue,
         s.nextLotId)

/-- Success post-state of `submitBid`: envelope/registry bookkeeping
and the running-maximum update (first bid sets the winning fields
directly; later bids go through `FHE.gt`/`FHE.select`). -/
def submitBidUpd (s : ContractState)
    (sender now lotId bidValue saltHash : Nat) : ContractState :=
  let lot := s.lots lotId
  let bidIndex := lot.bidCount
  let envelope : BidEnvelope :=
    { amount := bidValue, saltHash := saltHash, submittedAt := now,
      index := bidIndex, isSealed := false }
  let winning : Nat × Nat :=
    if bidIndex = 0 then (bidValue, bidIndex)
    else
      let isHigher := fheGt bidValue lot.encryptedWinningBid
      (fheSelect isHigher bidValue lot.encryptedWinningBid,
       fheSelect isHigher bidIndex lot.encryptedWinningIndex)
  let lot' := { lot with bidCount := bidIndex + 1,
                         encryptedWinningBid := winning.1,
                         encryptedWinningIndex := winning.2 }
  { s with
    lots := upd1 s.lots lotId lot',
    bids := upd2 s.bids lotId sender envelope,
    saltRegistry := upd2 s.saltRegistry lotId saltHash true,
    indexToBidder := upd2 s.indexToBidder lotId bidIndex sender,
    lotParticipants :=
      upd1 s.lotParticipants lotId
        (s.lotParticipants lotId ++ [sender]) }

/-- `submitBid`: the `lotExists` modifier, the five body precondition
checks in source order, then the bookkeeping of `submitBidUpd`. -/
def submitBid (s : ContractState) (sender now lotId bidValue saltHash : Nat) :
    Except Err ContractState :=
  if (s.lots lotId).curator = 0 then .error .LotNotFound
  else if saltHash = 0 then .error .EmptySalt
  else
    let lot := s.lots lotId
    if lot.closed then .error .AuctionClosed
    else if now < lot.startTime ∨ lot.endTime < now then
      .error .OutsideBiddingWindow
    else if s.saltRegistry lotId saltHash then .error .SaltAlreadyUsed
    else if (s.bids lotId sender).saltHash ≠ 0 then
      .error .BidAlreadySubmitted
    else
      .ok (submitBidUpd s sender now lotId bidValue saltHash)

/-- The sealing sweep of `closeLot`: the `for` loop setting
`isSealed := true` on every participant's envelope, as a left fold over
the participant list. -/
def sealBids (bids : Nat → Nat → BidEnvelope) (lotId : Nat) :
    List Nat → (Nat → Nat → BidEnvelope)
  | [] => bids
  | p :: rest =>
      sealBids (upd2 bids lotId p { (bids lotId p) with isSealed := true })
        lotId rest

/-- Success post-state of `closeLot`: sets `closed` and
`revealRequested` and seals every participant's envelope. -/
def closeLotUpd (s : ContractState) (lotId : Nat) : ContractState :=
  let lot := s.lots lotId
  let lot' := { lot with closed := true, revealRequested := true }
  { s with
    lots := upd1 s.lots lotId lot',
    bids := sealBids s.bids lotId (s.lotParticipants lotId) }

/-- `closeLot`: `lotExists` and `onlyCurator` modifiers, the three body
checks, then the effects of `closeLotUpd`. -/
def closeLot (s : ContractState) (sender lotId : Nat) :
    Except Err ContractState :=
  if (s.lots lotId).curator = 0 then .error .LotNotFound
  else if (s.lots lotId).curator ≠ sender then .error .NotCurator
  else
    let lot := s.lots lotId
    if lot.closed then .error .AuctionClosed
    else if s.gatewayOperator = 0 then .error .GatewayNotConfigured
    else if lot.revealRequested then .error .RevealAlreadyRequested
    else
      .ok (closeLotUpd s lotId)

/-- Success post-state of `settleReveal`: records the winner looked up
in the index-to-bidder map and the revealed amount, and sets
`settled`. -/
def settleRevealUpd (s : ContractState)
    (lotId winningIndex clearWinningBid : Nat) : ContractState :=
  let lot := s.lots lotId
  { s with
    lots := upd1 s.lots lotId
      { lot with winner := s.indexToBidder lotId winningIndex,
                 revealedAmount := clearWinningBid,
                 settled := true } }

/-- `settleReveal`: `lotExists` modifier, gateway authentication, the
three lifecycle checks, the identity cross-check against the
index-to-bidder map, then the effects of `settleRevealUpd`. -/
def settleReveal (s : ContractState)
    (sender lotId winningIndex clearWinningBid bidder : Nat) :
    Except Err ContractState :=
  if (s.lots lotId).curator = 0 then .error .LotNotFound
  else if sender ≠ s.gatewayOperator then .error .UnauthorizedGateway
  else
    let lot := s.lots lotId
    if ¬lot.closed then .error .AuctionNotClosed
    else if lot.settled then .error .AlreadySettled
    else if ¬lot.revealRequested then .error .RevealNotRequested
    else
      let recordedBidder := s.indexToBidder lotId winningIndex
      if recordedBidder ≠ bidder ∨ recordedBidder = 0 then
        .error .UnauthorizedGateway
      else
        .ok (settleRevealUpd s lotId winningIndex clearWinningBid)

/-- `updateGatewayOperator`: owner-only; the per-lot `FHE.allow` loop
has no cleartext-observable effect. -/
def updateGatewayOperator (s : ContractState) (sender newOperator : Nat) :
    Except Err ContractState :=
  if sender ≠ s.owner then .error .NotOwner
  else .ok { s with gatewayOperator := newOperator }

/-- `getBid`: `lotExists` modifier, then the read-access check (bidder,
curator or owner), then the envelope fields, with the ciphertext handle
modelled by its cleartext. -/
def getBid (s : ContractState) (sender lotId bidder : Nat) :
    Except Err (Nat × Nat × Nat × Nat × Bool) :=
  if (s.lots lotId).curator = 0 then .error .LotNotFound
  else if sender ≠ bidder ∧ sender ≠ (s.lots lotId).curator ∧
      sender ≠ s.owner then .error .NotCurator
  else
    let e := s.bids lotId bidder
    .ok (e.amount, e.saltHash, e.submittedAt, e.index, e.isSealed)

/-- Whether an `Except` result is a success. -/
def exceptOk {α : Type} (e : Except Err α) : Bool :=
  match e with
  | .ok _ => true
  | .error _ => false

/-- Extract the post-state of a state-returning call, with a default
for the error case. -/
def exceptGet (e : Except Err ContractState) (d : ContractState) :
    ContractState :=
  match e with
  | .ok s => s
  | .error _ => d

/-- One external transaction of the contract: any of the five mutating
entry points, called with arbitrary sender, timestamp and arguments,
succeeding. -/
inductive Step : ContractState → ContractState → Prop where
  | create (s s' : ContractState) (sender now : Nat) (m : String)
      (st et rv lotId : Nat)
      (h : createLot s sender now m st et rv = .ok (s', lotId)) :
      Step s s'
  | submit (s s' : ContractState) (sender now lotId v salt : Nat)
      (h : submitBid s sender now lotId v salt = .ok s') : Step s s'
  | close (s s' : ContractState) (sender lotId : Nat)
      (h : closeLot s sender lotId = .ok s') : Step s s'
  | settle (s s' : ContractState) (sender lotId wi cb bd : Nat)
      (h : settleReveal s sender lotId wi cb bd = .ok s') : Step s s'
  | updateGw (s s' : ContractState) (sender newOp : Nat)
      (h : updateGatewayOperator s sender newOp = .ok s') : Step s s'

/-- Contract states reachable from deployment by successful
transactions. -/
inductive Reachable : ContractState → Prop where
  | init (deployer : Nat) : Reachable (initState deployer)
  | step {s s' : ContractState} (hr : Reachable s) (hs : Step s s') :
      Reachable s'

theorem upd1_same {α : Type} (f : Nat → α) (i : Nat) (v : α) :
    upd1 f i v i = v := by
  simp [upd1]

theorem upd1_other {α : Type} (f : Nat → α) (i j : Nat) (v : α)
    (h : j ≠ i) : upd1 f i v j = f j := by
  simp [upd1, h]

theorem upd2_apply {α : Type} (f : Nat → Nat → α) (i j i' j' : Nat)
    (v : α) :
    upd2 f i j v i' j' = if i' = i ∧ j' = j then v else f i' j' := by
  unfold upd2
  by_cases h1 : i' = i <;> by_cases h2 : j' = j <;> simp [h1, h2]

/-- `createLot` succeeds exactly when the window is valid, and then
produces `createLotUpd` and allocates `nextLotId`. -/
theorem createLot_ok_iff (s : ContractState) (sender now : Nat)
    (m : String) (st et rv : Nat) (s' : ContractState) (lotId : Nat) :
    createLot s sender now m st et rv = .ok (s', lotId) ↔
      (st < et ∧ now < et ∧ s' = createLotUpd s sender m st et rv ∧
       lotId = s.nextLotId) := by
  unfold createLot
  split_ifs with h
  · simp only [reduceCtorEq, false_iff]
    intro hc
    omega
  · push_neg at h
    simp only [Except.ok.injEq, Prod.mk.injEq]
    constructor
    · rintro ⟨ha, hb⟩
      exact ⟨h.1, h.2, ha.symm, hb.symm⟩
    · rintro ⟨-, -, ha, hb⟩
      exact ⟨ha.symm, hb.symm⟩

/-- `submitBid` succeeds exactly when all six preconditions hold, and
then produces `submitBidUpd`. -/
theorem submitBid_ok_iff (s : ContractState)
    (sender now lotId v salt : Nat) (s' : ContractState) :
    submitBid s sender now lotId v salt = .ok s' ↔
      ((s.lots lotId).curator ≠ 0 ∧ salt ≠ 0 ∧
       (s.lots lotId).closed = false ∧
       (s.lots lotId).startTime ≤ now ∧ now ≤ (s.lots lotId).endTime ∧
       s.saltRegistry lotId salt = false ∧
       (s.bids lotId sender).saltHash = 0 ∧
       s' = submitBidUpd s sender now lotId v salt) := by
  constructor
  · intro h
    unfold submitBid at h
    dsimp only at h
    split_ifs at h with h1 h2 h3 h4 h5 h6 <;> try simp at h
    push_neg at h4 h6
    exact ⟨h1, h2, Bool.eq_false_iff.mpr h3, h4.1, h4.2,
           Bool.eq_false_iff.mpr h5, h6, h.symm⟩
  · rintro ⟨h1, h2, h3, h4a, h4b, h5, h6, h7⟩
    unfold submitBid
    dsimp only
    rw [if_neg h1, if_neg h2, if_neg (by simp [h3]), if_neg (by omega),
        if_neg (by simp [h5]), if_neg (by simp [h6]), h7]

/-- `closeLot` succeeds exactly when the caller is the curator of an
existing, still-open lot and a gateway operator is configured, and then
produces `closeLotUpd`. -/
theorem closeLot_ok_iff (s : ContractState) (sender lotId : Nat)
    (s' : ContractState) :
    closeLot s sender lotId = .ok s' ↔
      ((s.lots lotId).curator ≠ 0 ∧ (s.lots lotId).curator = sender ∧
       (s.lots lotId).closed = false ∧ s.gatewayOperator ≠ 0 ∧
       (s.lots lotId).revealRequested = false ∧
       s' = closeLotUpd s lotId) := by
  constructor
  · intro h
    unfold closeLot at h
    dsimp only at h
    split_ifs at h with h1 h2 h3 h4 h5 <;> try simp at h
    push_neg at h2
    exact ⟨h1, h2, Bool.eq_false_iff.mpr h3, h4,
           Bool.eq_false_iff.mpr h5, h.symm⟩
  · rintro ⟨h1, h2, h3, h4, h5, h6⟩
    unfold closeLot
    dsimp only
    rw [if_neg h1, if_neg (by simp [h2]), if_neg (by simp [h3]),
        if_neg h4, if_neg (by simp [h5]), h6]

/-- `settleReveal` succeeds exactly when called by the gateway operator
on an existing, closed, reveal-requested, unsettled lot with a
consistent recorded bidder, and then produces `settleRevealUpd`. -/
theorem settleReveal_ok_iff (s : ContractState)
    (sender lotId wi cb bd : Nat) (s' : ContractState) :
    settleReveal s sender lotId wi cb bd = .ok s' ↔
      ((s.lots lotId).curator ≠ 0 ∧ sender = s.gatewayOperator ∧
       (s.lots lotId).closed = true ∧ (s.lots lotId).settled = false ∧
       (s.lots lotId).revealRequested = true ∧
       s.indexToBidder lotId wi = bd ∧ s.indexToBidder lotId wi ≠ 0 ∧
       s' = settleRevealUpd s lotId wi cb) := by
  constructor
  · intro h
    unfold settleReveal at h
    dsimp only at h
    split_ifs at h with h1 h2 h3 h4 h5 h6 <;> try simp at h
    push_neg at h2 h6
    exact ⟨h1, h2, h3, Bool.eq_false_iff.mpr h4, h5,
           h6.1, h6.2, h.symm⟩
  · rintro ⟨h1, h2, h3, h4, h5, h6a, h6b, h7⟩
    unfold settleReveal
    dsimp only
    rw [if_neg h1, if_neg (by simp [h2]), if_neg (by simp [h3]),
        if_neg (by simp [h4]), if_neg (by simp [h5]),
        if_neg (by push_neg; exact ⟨h6a, h6b⟩), h7]

/-- `updateGatewayOperator` succeeds exactly for the owner and only
rewrites the `gatewayOperator` slot. -/
theorem updateGatewayOperator_ok_iff (s : ContractState)
    (sender newOp : Nat) (s' : ContractState) :
    updateGatewayOperator s sender newOp = .ok s' ↔
      (sender = s.owner ∧ s' = { s with gatewayOperator := newOp }) := by
  unfold updateGatewayOperator
  split_ifs with h1
  · simp [h1]
  · push_neg at h1
    simp only [Except.ok.injEq, h1, true_and]
    exact eq_comm

/-- Pointwise description of the sealing sweep: only the envelopes of
the listed participants of the target lot are touched, and only their
`isSealed` flag. -/
theorem sealBids_apply (lotId : Nat) (ps : List Nat)
    (bids : Nat → Nat → BidEnvelope) (l b : Nat) :
    sealBids bids lotId ps l b =
      if l = lotId ∧ b ∈ ps then { (bids l b) with isSealed := true }
      else bids l b := by
  induction ps generalizing bids with
  | nil => simp [sealBids]
  | cons p rest ih =>
    rw [sealBids, ih]
    by_cases hl : l = lotId
    · subst hl
      by_cases hb : b = p
      · subst hb
        by_cases hm : b ∈ rest <;> simp [hm, upd2_apply]
      · by_cases hm : b ∈ rest <;> simp [hm, hb, upd2_apply]
    · simp [hl, upd2_apply]

/-- The inductive state invariant: lot slots at or above the id counter
are untouched, `closed` and `revealRequested` coincide, `settled`
implies `closed`, an envelope with zero salt is entirely default, and
an envelope exists (nonzero salt) exactly for recorded participants. -/
structure Inv (s : ContractState) : Prop where
  fresh : ∀ id, s.nextLotId ≤ id → s.lots id = defaultLot
  flagsEq : ∀ id, (s.lots id).closed = (s.lots id).revealRequested
  settledClosed :
    ∀ id, (s.lots id).settled = true → (s.lots id).closed = true
  saltZero :
    ∀ l b, (s.bids l b).saltHash = 0 → s.bids l b = defaultEnvelope
  memParts : ∀ l b, (s.bids l b).saltHash = 0 ↔ b ∉ s.lotParticipants l

theorem inv_initState (deployer : Nat) : Inv (initState deployer) := by
  refine ⟨?_, ?_, ?_, ?_, ?_⟩ <;> intros <;>
    simp_all [initState, defaultLot, defaultEnvelope]

theorem inv_createLotUpd (s : ContractState) (hInv : Inv s)
    (sender : Nat) (m : String) (st et rv : Nat) :
    Inv (createLotUpd s sender m st et rv) := by
  obtain ⟨fresh, flagsEq, settledClosed, saltZero, memParts⟩ := hInv
  refine ⟨?_, ?_, ?_, ?_, ?_⟩ <;> dsimp only [createLotUpd]
  · intro id hid
    rw [upd1_other _ _ _ _ (by omega)]
    exact fresh id (by omega)
  · intro id
    by_cases hid : id = s.nextLotId
    · subst hid
      rw [upd1_same]
    · rw [upd1_other _ _ _ _ hid]
      exact flagsEq id
  · intro id
    by_cases hid : id = s.nextLotId
    · subst hid
      rw [upd1_same]
      intro hc
      exact absurd hc (by simp)
    · rw [upd1_other _ _ _ _ hid]
      exact settledClosed id
  · exact saltZero
  · exact memParts

theorem inv_submitBidUpd (s : ContractState) (hInv : Inv s)
    (sender now lotId v salt : Nat)
    (hcur : (s.lots lotId).curator ≠ 0) (hsalt : salt ≠ 0) :
    Inv (submitBidUpd s sender now lotId v salt) := by
  obtain ⟨fresh, flagsEq, settledClosed, saltZero, memParts⟩ := hInv
  refine ⟨?_, ?_, ?_, ?_, ?_⟩ <;> dsimp only [submitBidUpd]
  · intro id hid
    by_cases he : id = lotId
    · subst he
      exact absurd (show (s.lots id).curator = 0 by
        rw [fresh id hid]; rfl) hcur
    · rw [upd1_other _ _ _ _ he]
      exact fresh id hid
  · intro id
    by_cases he : id = lotId
    · subst he
      rw [upd1_same]
      exact flagsEq id
    · rw [upd1_other _ _ _ _ he]
      exact flagsEq id
  · intro id
    by_cases he : id = lotId
    · subst he
      rw [upd1_same]
      exact settledClosed id
    · rw [upd1_other _ _ _ _ he]
      exact settledClosed id
  · intro l b
    rw [upd2_apply]
    split_ifs with he
    · intro hc
      exact absurd hc hsalt
    · exact saltZero l b
  · intro l b
    rw [upd2_apply]
    by_cases hl : l = lotId
    · subst hl
      by_cases hb : b = sender
      · subst hb
        simp [upd1_same, hsalt]
      · simp only [hb, and_false, if_false, upd1_same,
                   List.mem_append, List.mem_singleton, hb, or_false]
        exact memParts l b
    · simp only [hl, false_and, if_false]
      rw [upd1_other _ _ _ _ hl]
      exact memParts l b

theorem inv_closeLotUpd (s : ContractState) (hInv : Inv s)
    (lotId : Nat) (hcur : (s.lots lotId).curator ≠ 0) :
    Inv (closeLotUpd s lotId) := by
  obtain ⟨fresh, flagsEq, settledClosed, saltZero, memParts⟩ := hInv
  refine ⟨?_, ?_, ?_, ?_, ?_⟩ <;> dsimp only [closeLotUpd]
  · intro id hid
    by_cases he : id = lotId
    · subst he
      exact absurd (show (s.lots id).curator = 0 by
        rw [fresh id hid]; rfl) hcur
    · rw [upd1_other _ _ _ _ he]
      exact fresh id hid
  · intro id
    by_cases he : id = lotId
    · subst he
      rw [upd1_same]
    · rw [upd1_other _ _ _ _ he]
      exact flagsEq id
  · intro id
    by_cases he : id = lotId
    · subst he
      rw [upd1_same]
      intro _
      rfl
    · rw [upd1_other _ _ _ _ he]
      exact settledClosed id
  · intro l b
    rw [sealBids_apply]
    split_ifs with he
    · intro hc
      exact absurd ((memParts l b).mp hc) (by simp [he.1 ▸ he.2])
    · exact saltZero l b
  · intro l b
    rw [sealBids_apply]
    split_ifs with he <;> exact memParts l b

theorem inv_settleRevealUpd (s : ContractState) (hInv : Inv s)
    (lotId wi cb : Nat) (hcur : (s.lots lotId).curator ≠ 0)
    (hclosed : (s.lots lotId).closed = true) :
    Inv (settleRevealUpd s lotId wi cb) := by
  obtain ⟨fresh, flagsEq, settledClosed, saltZero, memParts⟩ := hInv
  refine ⟨?_, ?_, ?_, ?_, ?_⟩ <;> dsimp only [settleRevealUpd]
  · intro id hid
    by_cases he : id = lotId
    · subst he
      exact absurd (show (s.lots id).curator = 0 by
        rw [fresh id hid]; rfl) hcur
    · rw [upd1_other _ _ _ _ he]
      exact fresh id hid
  · intro id
    by_cases he : id = lotId
    · subst he
      rw [upd1_same]
      exact flagsEq id
    · rw [upd1_other _ _ _ _ he]
      exact flagsEq id
  · intro id
    by_cases he : id = lotId
    · subst he
      rw [upd1_same]
      intro _
      exact hclosed
    · rw [upd1_other _ _ _ _ he]
      exact settledClosed id
  · exact saltZero
  · exact memParts

theorem inv_updateGatewayOperatorUpd (s : ContractState) (hInv : Inv s)
    (newOp : Nat) : Inv { s with gatewayOperator := newOp } := by
  obtain ⟨fresh, flagsEq, settledClosed, saltZero, memParts⟩ := hInv
  exact ⟨fresh, flagsEq, settledClosed, saltZero, memParts⟩

/-- Every reachable state satisfies the invariant. -/
theorem reachable_inv (s : ContractState) (hr : Reachable s) : Inv s := by
  induction hr with
  | init deployer => exact inv_initState deployer
  | step hr hs ih =>
    cases hs with
    | create sender now m st et rv lotId h =>
      obtain ⟨-, -, hs', -⟩ := (createLot_ok_iff _ _ _ _ _ _ _ _ _).mp h
      rw [hs']
      exact inv_createLotUpd _ ih sender m st et rv
    | submit sender now lotId v salt h =>
      obtain ⟨hcur, hsalt, -, -, -, -, -, hs'⟩ :=
        (submitBid_ok_iff _ _ _ _ _ _ _).mp h
      rw [hs']
      exact inv_submitBidUpd _ ih sender now lotId v salt hcur hsalt
    | close sender lotId h =>
      obtain ⟨hcur, -, -, -, -, hs'⟩ :=
        (closeLot_ok_iff _ _ _ _).mp h
      rw [hs']
      exact inv_closeLotUpd _ ih lotId hcur
    | settle sender lotId wi cb bd h =>
      obtain ⟨hcur, -, hclosed, -, -, -, -, hs'⟩ :=
        (settleReveal_ok_iff _ _ _ _ _ _ _).mp h
      rw [hs']
      exact inv_settleRevealUpd _ ih lotId wi cb hcur hclosed
    | updateGw sender newOp h =>
      obtain ⟨-, hs'⟩ :=
        (updateGatewayOperator_ok_iff _ _ _ _).mp h
      rw [hs']
      exact inv_updateGatewayOperatorUpd _ ih newOp

/-- Abstract one-bid update of the winning pair performed by
`submitBid`: `k` is the pre-state `bidCount` (the index of the incoming
bid), `wb`/`wi` the current winning ciphertexts (cleartext-modelled),
`v` the incoming bid value. -/
def winStep (k wb wi v : Nat) : Nat × Nat :=
  if k = 0 then (v, 0)
  else (fheSelect (fheGt v wb) v wb, fheSelect (fheGt v wb) k wi)

/-- Iterated `winStep` over a list of bid values, starting at bid
index `start`. -/
def foldWin (start wb wi : Nat) : List Nat → Nat × Nat
  | [] => (wb, wi)
  | v :: rest =>
      foldWin (start + 1) (winStep start wb wi v).1
        (winStep start wb wi v).2 rest

/-- The winning-pair specification for a nonempty prefix `p` of bid
values: the index is in range, it points at the winning value, the
winning value dominates every submitted value, and every strictly
earlier value is strictly below it. -/
def WinInv (p : List Nat) (wb wi : Nat) : Prop :=
  wi < p.length ∧ p.getD wi 0 = wb ∧ (∀ v ∈ p, v ≤ wb) ∧
    ∀ j, j < wi → p.getD j 0 < wb

theorem winInv_single (v : Nat) : WinInv [v] v 0 := by
  refine ⟨by simp, by simp, by simp, ?_⟩
  intro j hj
  omega

theorem winStep_zero (wb wi v : Nat) : winStep 0 wb wi v = (v, 0) := by
  simp [winStep]

theorem winStep_gt (k wb wi v : Nat) (hk : k ≠ 0) (h : wb < v) :
    winStep k wb wi v = (v, k) := by
  simp [winStep, fheGt, fheSelect, hk, h]

theorem winStep_le (k wb wi v : Nat) (hk : k ≠ 0) (h : ¬wb < v) :
    winStep k wb wi v = (wb, wi) := by
  simp [winStep, fheGt, fheSelect, hk, h]

theorem winInv_step (p : List Nat) (wb wi v : Nat) (hp : p ≠ [])
    (h : WinInv p wb wi) :
    WinInv (p ++ [v]) (winStep p.length wb wi v).1
      (winStep p.length wb wi v).2 := by
  obtain ⟨hlt, hat, hub, hstrict⟩ := h
  have hlen : p.length ≠ 0 := fun h0 => hp (List.length_eq_zero.mp h0)
  by_cases hgt : wb < v
  · rw [winStep_gt _ _ _ _ hlen hgt]
    refine ⟨by simp, ?_, ?_, ?_⟩
    · rw [List.getD_append_right _ _ _ _ (le_refl _)]
      simp
    · intro x hx
      rcases List.mem_append.mp hx with hx | hx
      · exact le_of_lt (lt_of_le_of_lt (hub x hx) hgt)
      · simp only [List.mem_singleton] at hx
        omega
    · intro j hj
      rw [List.getD_append _ _ _ _ hj]
      have hmem : p.getD j 0 ∈ p := by
        rw [List.getD_eq_getElem p 0 hj]
        exact List.getElem_mem hj
      exact lt_of_le_of_lt (hub _ hmem) hgt
  · rw [winStep_le _ _ _ _ hlen hgt]
    refine ⟨by simp only [List.length_append]; omega, ?_, ?_, ?_⟩
    · rw [List.getD_append _ _ _ _ hlt]
      exact hat
    · intro x hx
      rcases List.mem_append.mp hx with hx | hx
      · exact hub x hx
      · simp only [List.mem_singleton] at hx
        omega
    · intro j hj
      rw [List.getD_append _ _ _ _ (lt_trans hj hlt)]
      exact hstrict j hj

theorem winInv_foldWin (vs p : List Nat) (wb wi : Nat) (hp : p ≠ [])
    (h : WinInv p wb wi) :
    WinInv (p ++ vs) (foldWin p.length wb wi vs).1
      (foldWin p.length wb wi vs).2 := by
  induction vs generalizing p wb wi with
  | nil => simpa [foldWin] using h
  | cons v rest ih =>
    have hstep := winInv_step p wb wi v hp h
    have hlen : (p ++ [v]).length = p.length + 1 := by simp
    have := ih (p ++ [v]) (winStep p.length wb wi v).1
      (winStep p.length wb wi v).2 (by simp) (by exact hstep)
    rw [hlen] at this
    simpa [foldWin, List.append_assoc] using this

/-- Sequential driver: submit each `(bidder, value, salt)` triple in
turn at a fixed timestamp; any revert aborts the whole run. -/
def runBids (s : ContractState) (lotId now : Nat) :
    List (Nat × Nat × Nat) → Except Err ContractState
  | [] => .ok s
  | (sender, v, salt) :: rest =>
      match submitBid s sender now lotId v salt with
      | .ok s' => runBids s' lotId now rest
      | .error e => .error e

/-- A successful `submitBid` rewrites the target lot by bumping
`bidCount` and applying `winStep` to the winning pair. -/
theorem submitBidUpd_lot (s : ContractState)
    (sender now lotId v salt : Nat) :
    (submitBidUpd s sender now lotId v salt).lots lotId =
      { (s.lots lotId) with
        bidCount := (s.lots lotId).bidCount + 1,
        encryptedWinningBid :=
          (winStep (s.lots lotId).bidCount
            (s.lots lotId).encryptedWinningBid
            (s.lots lotId).encryptedWinningIndex v).1,
        encryptedWinningIndex :=
          (winStep (s.lots lotId).bidCount
            (s.lots lotId).encryptedWinningBid
            (s.lots lotId).encryptedWinningIndex v).2 } := by
  dsimp only [submitBidUpd]
  rw [upd1_same]
  by_cases h : (s.lots lotId).bidCount = 0 <;> simp [winStep, h]

/-- A successful run of `runBids` bumps `bidCount` by the number of
bids and folds `winStep` over the submitted values. -/
theorem runBids_ok (bids : List (Nat × Nat × Nat)) (s s' : ContractState)
    (lotId now : Nat) (h : runBids s lotId now bids = .ok s') :
    (s'.lots lotId).bidCount = (s.lots lotId).bidCount + bids.length ∧
    ((s'.lots lotId).encryptedWinningBid,
     (s'.lots lotId).encryptedWinningIndex) =
      foldWin (s.lots lotId).bidCount
        (s.lots lotId).encryptedWinningBid
        (s.lots lotId).encryptedWinningIndex
        (bids.map fun b => b.2.1) := by
  induction bids generalizing s with
  | nil =>
    simp only [runBids] at h
    cases h
    simp [foldWin]
  | cons b rest ih =>
    obtain ⟨sender, v, salt⟩ := b
    simp only [runBids] at h
    cases hsb : submitBid s sender now lotId v salt with
    | error e =>
      rw [hsb] at h
      cases h
    | ok s₁ =>
      rw [hsb] at h
      obtain ⟨hbc, hpair⟩ := ih s₁ h
      obtain ⟨-, -, -, -, -, -, -, hs₁⟩ :=
        (submitBid_ok_iff _ _ _ _ _ _ _).mp hsb
      subst hs₁
      rw [submitBidUpd_lot] at hbc hpair
      dsimp only at hbc hpair
      constructor
      · simp only [List.length_cons]
        omega
      · simp only [List.map_cons, foldWin]
        exact hpair

theorem createLotUpd_lot_other (s : ContractState) (sender : Nat)
    (m : String) (st et rv id : Nat) (h : id ≠ s.nextLotId) :
    (createLotUpd s sender m st et rv).lots id = s.lots id := by
  dsimp only [createLotUpd]
  exact upd1_other _ _ _ _ h

theorem createLotUpd_lot (s : ContractState) (sender : Nat) (m : String)
    (st et rv : Nat) :
    (createLotUpd s sender m st et rv).lots s.nextLotId =
      { curator := sender, startTime := st, endTime := et,
        closed := false, revealRequested := false, settled := false,
        bidCount := 0, encryptedReserve := rv, encryptedWinningBid := 0,
        encryptedWinningIndex := 0, winner := 0, revealedAmount := 0,
        metadataURI := m } := by
  dsimp only [createLotUpd]
  exact upd1_same _ _ _

theorem submitBidUpd_lot_other (s : ContractState)
    (sender now lotId v salt id : Nat) (h : id ≠ lotId) :
    (submitBidUpd s sender now lotId v salt).lots id = s.lots id := by
  dsimp only [submitBidUpd]
  exact upd1_other _ _ _ _ h

theorem closeLotUpd_lot_other (s : ContractState) (lotId id : Nat)
    (h : id ≠ lotId) :
    (closeLotUpd s lotId).lots id = s.lots id := by
  dsimp only [closeLotUpd]
  exact upd1_other _ _ _ _ h

theorem closeLotUpd_lot (s : ContractState) (lotId : Nat) :
    (closeLotUpd s lotId).lots lotId =
      { (s.lots lotId) with closed := true, revealRequested := true } := by
  dsimp only [closeLotUpd]
  exact upd1_same _ _ _

theorem settleRevealUpd_lot_other (s : ContractState)
    (lotId wi cb id : Nat) (h : id ≠ lotId) :
    (settleRevealUpd s lotId wi cb).lots id = s.lots id := by
  dsimp only [settleRevealUpd]
  exact upd1_other _ _ _ _ h

theorem settleRevealUpd_lot (s : ContractState) (lotId wi cb : Nat) :
    (settleRevealUpd s lotId wi cb).lots lotId =
      { (s.lots lotId) with
        winner := s.indexToBidder lotId wi,
        revealedAmount := cb, settled := true } := by
  dsimp only [settleRevealUpd]
  exact upd1_same _ _ _

/-!
Concrete sample run used by the witnesses: deployer `7` configures
gateway operator `9`; curator `5` creates lot `1` with window
`[10, 20]`; bidder `11` bids value `5` with salt `3` at time `15`; the
curator closes the lot; the gateway settles on index `0`.
-/

def w0 : ContractState := initState 7

def w1 : ContractState := exceptGet (updateGatewayOperator w0 7 9) w0

def w2 : ContractState :=
  match createLot w1 5 3 "m" 10 20 100 with
  | .ok (s, _) => s
  | .error _ => w1

def w3 : ContractState := exceptGet (submitBid w2 11 15 1 5 3) w2

def w4 : ContractState := exceptGet (closeLot w3 5 1) w3

def w5 : ContractState := exceptGet (settleReveal w4 9 1 0 5 11) w4

def w6 : ContractState := exceptGet (updateGatewayOperator w5 7 9) w5

def cbids : List (Nat × Nat × Nat) := [(11, 5, 3), (12, 9, 4), (13, 9, 6)]

def wA : ContractState := exceptGet (runBids w2 1 15 cbids) w2

theorem reachable_w1 : Reachable w1 :=
  Reachable.step (Reachable.init 7) (Step.updateGw w0 w1 7 9 rfl)

theorem reachable_w2 : Reachable w2 :=
  Reachable.step reachable_w1 (Step.create w1 w2 5 3 "m" 10 20 100 1 rfl)

theorem reachable_w3 : Reachable w3 :=
  Reachable.step reachable_w2 (Step.submit w2 w3 11 15 1 5 3 rfl)

theorem reachable_w4 : Reachable w4 :=
  Reachable.step reachable_w3 (Step.close w3 w4 5 1 rfl)

theorem reachable_w5 : Reachable w5 :=
  Reachable.step reachable_w4 (Step.settle w4 w5 9 1 0 5 11 rfl)

/-- C3: `submitBid` fails with `LotNotFound` if the lot does not exist;
otherwise with `EmptySalt` if the salt is zero; otherwise with
`AuctionClosed` if the lot is closed; otherwise with
`OutsideBiddingWindow` if the time is outside the inclusive window;
otherwise with `SaltAlreadyUsed` if the salt is registered; otherwise
with `BidAlreadySubmitted` if the caller already has an envelope — six
distinct named errors, checked in exactly this order. -/
theorem submitBid_error_priority (s : ContractState)
    (sender now lotId v salt : Nat) :
    ((s.lots lotId).curator = 0 →
      submitBid s sender now lotId v salt = .error .LotNotFound) ∧
    ((s.lots lotId).curator ≠ 0 → salt = 0 →
      submitBid s sender now lotId v salt = .error .EmptySalt) ∧
    ((s.lots lotId).curator ≠ 0 → salt ≠ 0 →
      (s.lots lotId).closed = true →
      submitBid s sender now lotId v salt = .error .AuctionClosed) ∧
    ((s.lots lotId).curator ≠ 0 → salt ≠ 0 →
      (s.lots lotId).closed = false →
      (now < (s.lots lotId).startTime ∨ (s.lots lotId).endTime < now) →
      submitBid s sender now lotId v salt =
        .error .OutsideBiddingWindow) ∧
    ((s.lots lotId).curator ≠ 0 → salt ≠ 0 →
      (s.lots lotId).closed = false →
      (s.lots lotId).startTime ≤ now → now ≤ (s.lots lotId).endTime →
      s.saltRegistry lotId salt = true →
      submitBid s sender now lotId v salt = .error .SaltAlreadyUsed) ∧
    ((s.lots lotId).curator ≠ 0 → salt ≠ 0 →
      (s.lots lotId).closed = false →
      (s.lots lotId).startTime ≤ now → now ≤ (s.lots lotId).endTime →
      s.saltRegistry lotId salt = false →
      (s.bids lotId sender).saltHash ≠ 0 →
      submitBid s sender now lotId v salt =
        .error .BidAlreadySubmitted) := by
  refine ⟨?_, ?_, ?_, ?_, ?_, ?_⟩
  · intro h1
    unfold submitBid
    rw [if_pos h1]
  · intro h1 h2
    unfold submitBid
    rw [if_neg h1, if_pos h2]
  · intro h1 h2 h3
    unfold submitBid
    dsimp only
    rw [if_neg h1, if_neg h2, if_pos h3]
  · intro h1 h2 h3 h4
    unfold submitBid
    dsimp only
    rw [if_neg h1, if_neg h2, if_neg (by simp [h3]), if_pos h4]
  · intro h1 h2 h3 h4 h5 h6
    unfold submitBid
    dsimp only
    rw [if_neg h1, if_neg h2, if_neg (by simp [h3]),
        if_neg (by omega), if_pos h6]
  · intro h1 h2 h3 h4 h5 h6 h7
    unfold submitBid
    dsimp only
    rw [if_neg h1, if_neg h2, if_neg (by simp [h3]),
        if_neg (by omega), if_neg (by simp [h6]), if_pos h7]

theorem submitBid_error_priority_witness :
    submitBid w2 11 15 2 5 3 = .error .LotNotFound ∧
    submitBid w2 11 15 1 5 0 = .error .EmptySalt ∧
    submitBid w4 12 15 1 5 4 = .error .AuctionClosed ∧
    submitBid w2 11 21 1 5 4 = .error .OutsideBiddingWindow ∧
    submitBid w3 12 15 1 5 3 = .error .SaltAlreadyUsed ∧
    submitBid w3 11 15 1 5 4 = .error .BidAlreadySubmitted :=
  ⟨(submitBid_error_priority w2 11 15 2 5 3).1 (by decide),
   (submitBid_error_priority w2 11 15 1 5 0).2.1 (by decide) rfl,
   (submitBid_error_priority w4 12 15 1 5 4).2.2.1 (by decide)
     (by decide) (by decide),
   (submitBid_error_priority w2 11 21 1 5 4).2.2.2.1 (by decide)
     (by decide) (by decide) (by decide),
   (submitBid_error_priority w3 12 15 1 5 3).2.2.2.2.1 (by decide)
     (by decide) (by decide) (by decide) (by decide) (by decide),
   (submitBid_error_priority w3 11 15 1 5 4).2.2.2.2.2 (by decide)
     (by decide) (by decide) (by decide) (by decide) (by decide)
     (by decide)⟩

/-- C5: `createLot` with `endTime ≤ startTime` or `endTime` not
strictly in the future fails with `InvalidWindow`, and no lot id is
consumed: any later successful `createLot` from the same state is
assigned exactly `nextLotId`, the id the failed call would have
received. -/
theorem createLot_invalid_window (s : ContractState) (sender now : Nat)
    (m : String) (st et rv : Nat) (h : et ≤ st ∨ et ≤ now) :
    createLot s sender now m st et rv = .error .InvalidWindow ∧
    ∀ (sender2 now2 : Nat) (m2 : String) (st2 et2 rv2 : Nat)
      (s2 : ContractState) (lotId2 : Nat),
      createLot s sender2 now2 m2 st2 et2 rv2 = .ok (s2, lotId2) →
      lotId2 = s.nextLotId := by
  constructor
  · unfold createLot
    rw [if_pos h]
  · intro sender2 now2 m2 st2 et2 rv2 s2 lotId2 hok
    exact ((createLot_ok_iff s sender2 now2 m2 st2 et2 rv2 s2
      lotId2).mp hok).2.2.2

theorem createLot_invalid_window_witness :
    createLot w1 5 30 "m" 10 9 100 = .error .InvalidWindow ∧
    (1 : Nat) = w1.nextLotId :=
  ⟨(createLot_invalid_window w1 5 30 "m" 10 9 100
      (Or.inl (by decide))).1,
   (createLot_invalid_window w1 5 30 "m" 10 9 100
      (Or.inl (by decide))).2 5 3 "m" 10 20 100 w2 1 rfl⟩

/-- C8: `getBid` on a non-existent lot fails with `LotNotFound` before
any access check; on an existing lot it succeeds exactly when the
caller is the queried bidder, the lot's curator, or the owner, and
every other caller gets `NotCurator`. -/
theorem getBid_access (s : ContractState) (sender lotId bidder : Nat) :
    ((s.lots lotId).curator = 0 →
      getBid s sender lotId bidder = .error .LotNotFound) ∧
    ((s.lots lotId).curator ≠ 0 →
      (exceptOk (getBid s sender lotId bidder) = true ↔
        (sender = bidder ∨ sender = (s.lots lotId).curator ∨
         sender = s.owner)) ∧
      (¬(sender = bidder ∨ sender = (s.lots lotId).curator ∨
         sender = s.owner) →
        getBid s sender lotId bidder = .error .NotCurator)) := by
  constructor
  · intro h1
    unfold getBid
    rw [if_pos h1]
  · intro h1
    unfold getBid
    rw [if_neg h1]
    by_cases hacc : sender ≠ bidder ∧
        sender ≠ (s.lots lotId).curator ∧ sender ≠ s.owner
    · rw [if_pos hacc]
      constructor
      · simp only [exceptOk, reduceCtorEq, false_iff]
        rintro (h | h | h)
        · exact hacc.1 h
        · exact hacc.2.1 h
        · exact hacc.2.2 h
      · intro _
        rfl
    · rw [if_neg hacc]
      constructor
      · simp only [exceptOk, true_iff]
        by_contra hc
        push_neg at hc
        exact hacc ⟨hc.1, hc.2.1, hc.2.2⟩
      · intro hn
        push_neg at hn
        exact absurd ⟨hn.1, hn.2.1, hn.2.2⟩ hacc

theorem getBid_access_witness :
    getBid w2 5 2 11 = .error .LotNotFound ∧
    exceptOk (getBid w2 5 1 11) = true ∧
    getBid w2 12 1 11 = .error .NotCurator :=
  ⟨(getBid_access w2 5 2 11).1 (by decide),
   ((getBid_access w2 5 1 11).2 (by decide)).1.mpr
     (Or.inr (Or.inl (by decide))),
   ((getBid_access w2 12 1 11).2 (by decide)).2 (by decide)⟩

/-- C10: on an existing lot, `getBid` queried by an authorized caller
for a bidder who never submitted returns the all-zero default envelope
(zero ciphertext handle, zero salt, `submittedAt` 0, index 0,
`isSealed` false) instead of a distinct not-found error. -/
theorem getBid_no_envelope (s : ContractState) (hr : Reachable s)
    (sender lotId bidder : Nat) (hex : (s.lots lotId).curator ≠ 0)
    (hauth : sender = bidder ∨ sender = (s.lots lotId).curator ∨
      sender = s.owner)
    (hnb : bidder ∉ s.lotParticipants lotId) :
    getBid s sender lotId bidder = .ok (0, 0, 0, 0, false) := by
  have hInv := reachable_inv s hr
  have hz : (s.bids lotId bidder).saltHash = 0 :=
    (hInv.memParts lotId bidder).mpr hnb
  have hdef : s.bids lotId bidder = defaultEnvelope :=
    hInv.saltZero lotId bidder hz
  unfold getBid
  rw [if_neg hex,
      if_neg (by rcases hauth with h | h | h <;> simp [h])]
  dsimp only
  rw [hdef]
  rfl

theorem getBid_no_envelope_witness :
    getBid w2 13 1 13 = .ok (0, 0, 0, 0, false) :=
  getBid_no_envelope w2 reachable_w2 13 1 13 (by decide)
    (Or.inl rfl) (by decide)

/-- C2: on a closed, unsettled lot, `settleReveal` called by the
gateway operator fails with `UnauthorizedGateway` whenever the bidder
recorded at `winningIndex` differs from the `bidder` argument or is the
zero address, leaving the lot unchanged (a revert returns no state);
when the recorded bidder matches, it succeeds, records that bidder as
`winner`, stores `clearWinningBid` as `revealedAmount`, and sets
`settled`. -/
theorem settleReveal_identity (s : ContractState) (hr : Reachable s)
    (sender lotId wi cb bd : Nat)
    (hex : (s.lots lotId).curator ≠ 0)
    (hgw : sender = s.gatewayOperator)
    (hclosed : (s.lots lotId).closed = true)
    (hunsettled : (s.lots lotId).settled = false) :
    ((s.indexToBidder lotId wi ≠ bd ∨ s.indexToBidder lotId wi = 0) →
      settleReveal s sender lotId wi cb bd =
        .error .UnauthorizedGateway) ∧
    ((s.indexToBidder lotId wi = bd ∧ s.indexToBidder lotId wi ≠ 0) →
      settleReveal s sender lotId wi cb bd =
        .ok (settleRevealUpd s lotId wi cb) ∧
      ((settleRevealUpd s lotId wi cb).lots lotId).winner =
        s.indexToBidder lotId wi ∧
      ((settleRevealUpd s lotId wi cb).lots lotId).revealedAmount = cb ∧
      ((settleRevealUpd s lotId wi cb).lots lotId).settled = true) := by
  have hInv := reachable_inv s hr
  have hreq : (s.lots lotId).revealRequested = true :=
    (hInv.flagsEq lotId) ▸ hclosed
  constructor
  · intro hbad
    unfold settleReveal
    dsimp only
    rw [if_neg hex, if_neg (by simp [hgw]), if_neg (by simp [hclosed]),
        if_neg (by simp [hunsettled]), if_neg (by simp [hreq]),
        if_pos hbad]
  · intro hgood
    refine ⟨?_, ?_, ?_, ?_⟩
    · unfold settleReveal
      dsimp only
      rw [if_neg hex, if_neg (by simp [hgw]),
          if_neg (by simp [hclosed]), if_neg (by simp [hunsettled]),
          if_neg (by simp [hreq]),
          if_neg (by push_neg; exact ⟨hgood.1, hgood.2⟩)]
    · rw [settleRevealUpd_lot]
    · rw [settleRevealUpd_lot]
    · rw [settleRevealUpd_lot]

theorem settleReveal_identity_witness :
    settleReveal w4 9 1 0 42 12 = .error .UnauthorizedGateway ∧
    settleReveal w4 9 1 0 42 11 = .ok (settleRevealUpd w4 1 0 42) ∧
    ((settleRevealUpd w4 1 0 42).lots 1).winner = 11 ∧
    ((settleRevealUpd w4 1 0 42).lots 1).revealedAmount = 42 ∧
    ((settleRevealUpd w4 1 0 42).lots 1).settled = true := by
  have hbad := (settleReveal_identity w4 reachable_w4 9 1 0 42 12
    (by decide) (by decide) (by decide) (by decide)).1
    (Or.inl (by decide))
  have hgood := (settleReveal_identity w4 reachable_w4 9 1 0 42 11
    (by decide) (by decide) (by decide) (by decide)).2
    ⟨by decide, by decide⟩
  exact ⟨hbad, hgood.1, by decide, by decide, by decide⟩

/-- C6: given an existing lot and an otherwise-valid submission (fresh
nonzero salt, no prior envelope from the caller), `submitBid` succeeds
exactly when `startTime ≤ now ≤ endTime` (both boundaries inclusive)
and the lot is not closed; outside that window or on a closed lot it
is rejected. -/
theorem submitBid_window_iff (s : ContractState)
    (sender now lotId v salt : Nat)
    (hex : (s.lots lotId).curator ≠ 0) (hsalt : salt ≠ 0)
    (hunused : s.saltRegistry lotId salt = false)
    (hnb : (s.bids lotId sender).saltHash = 0) :
    exceptOk (submitBid s sender now lotId v salt) = true ↔
      ((s.lots lotId).startTime ≤ now ∧
       now ≤ (s.lots lotId).endTime ∧
       (s.lots lotId).closed = false) := by
  constructor
  · intro h
    cases hsb : submitBid s sender now lotId v salt with
    | error e =>
      rw [hsb] at h
      simp [exceptOk] at h
    | ok s' =>
      obtain ⟨-, -, h3, h4, h5, -, -, -⟩ :=
        (submitBid_ok_iff _ _ _ _ _ _ _).mp hsb
      exact ⟨h4, h5, h3⟩
  · rintro ⟨h1, h2, h3⟩
    have hok : submitBid s sender now lotId v salt =
        .ok (submitBidUpd s sender now lotId v salt) :=
      (submitBid_ok_iff _ _ _ _ _ _ _).mpr
        ⟨hex, hsalt, h3, h1, h2, hunused, hnb, rfl⟩
    rw [hok]
    rfl

theorem submitBid_window_iff_witness :
    exceptOk (submitBid w2 11 10 1 5 3) = true ∧
    exceptOk (submitBid w2 11 20 1 5 3) = true ∧
    ¬exceptOk (submitBid w2 11 9 1 5 3) = true ∧
    ¬exceptOk (submitBid w2 11 21 1 5 3) = true :=
  ⟨(submitBid_window_iff w2 11 10 1 5 3 (by decide) (by decide)
      (by decide) (by decide)).mpr ⟨by decide, by decide, by decide⟩,
   (submitBid_window_iff w2 11 20 1 5 3 (by decide) (by decide)
      (by decide) (by decide)).mpr ⟨by decide, by decide, by decide⟩,
   fun h => absurd ((submitBid_window_iff w2 11 9 1 5 3 (by decide)
      (by decide) (by decide) (by decide)).mp h) (by decide),
   fun h => absurd ((submitBid_window_iff w2 11 21 1 5 3 (by decide)
      (by decide) (by decide) (by decide)).mp h) (by decide)⟩

/-- C4: across every successful transaction from a reachable state,
`closed`, `revealRequested` and `settled` never transition from true to
false; in every reachable state `settled` implies `closed` and
`revealRequested`; and calling `closeLot` a second time on the same lot
fails with `AuctionClosed`. -/
theorem lifecycle_flags_monotonic (s s' : ContractState)
    (hr : Reachable s) (hstep : Step s s') :
    (∀ lotId,
      ((s.lots lotId).closed = true → (s'.lots lotId).closed = true) ∧
      ((s.lots lotId).revealRequested = true →
        (s'.lots lotId).revealRequested = true) ∧
      ((s.lots lotId).settled = true →
        (s'.lots lotId).settled = true)) ∧
    (∀ lotId, (s.lots lotId).settled = true →
      (s.lots lotId).closed = true ∧
      (s.lots lotId).revealRequested = true) ∧
    (∀ sender lotId s₂, closeLot s sender lotId = .ok s₂ →
      closeLot s₂ sender lotId = .error .AuctionClosed) := by
  have hInv := reachable_inv s hr
  refine ⟨?_, ?_, ?_⟩
  · intro lotId
    cases hstep with
    | create sender now m st et rv lotId' h =>
      obtain ⟨-, -, hs', -⟩ := (createLot_ok_iff _ _ _ _ _ _ _ _ _).mp h
      subst hs'
      by_cases he : lotId = s.nextLotId
      · have hd := hInv.fresh s.nextLotId (le_refl _)
        rw [he, createLotUpd_lot, hd]
        simp [defaultLot]
      · rw [createLotUpd_lot_other _ _ _ _ _ _ _ he]
        exact ⟨id, id, id⟩
    | submit sender now lotId' v salt h =>
      obtain ⟨-, -, -, -, -, -, -, hs'⟩ :=
        (submitBid_ok_iff _ _ _ _ _ _ _).mp h
      subst hs'
      by_cases he : lotId = lotId'
      · subst he
        rw [submitBidUpd_lot]
        exact ⟨id, id, id⟩
      · rw [submitBidUpd_lot_other _ _ _ _ _ _ _ he]
        exact ⟨id, id, id⟩
    | close sender lotId' h =>
      obtain ⟨-, -, -, -, -, hs'⟩ := (closeLot_ok_iff _ _ _ _).mp h
      subst hs'
      by_cases he : lotId = lotId'
      · subst he
        rw [closeLotUpd_lot]
        exact ⟨fun _ => rfl, fun _ => rfl, id⟩
      · rw [closeLotUpd_lot_other _ _ _ he]
        exact ⟨id, id, id⟩
    | settle sender lotId' wi cb bd h =>
      obtain ⟨-, -, -, -, -, -, -, hs'⟩ :=
        (settleReveal_ok_iff _ _ _ _ _ _ _).mp h
      subst hs'
      by_cases he : lotId = lotId'
      · subst he
        rw [settleRevealUpd_lot]
        exact ⟨id, id, fun _ => rfl⟩
      · rw [settleRevealUpd_lot_other _ _ _ _ _ he]
        exact ⟨id, id, id⟩
    | updateGw sender newOp h =>
      obtain ⟨-, hs'⟩ := (updateGatewayOperator_ok_iff _ _ _ _).mp h
      subst hs'
      exact ⟨id, id, id⟩
  · intro lotId hsettled
    refine ⟨hInv.settledClosed lotId hsettled, ?_⟩
    rw [← hInv.flagsEq lotId]
    exact hInv.settledClosed lotId hsettled
  · intro sender lotId s₂ hok
    obtain ⟨hcur, hsender, -, -, -, hs₂⟩ := (closeLot_ok_iff _ _ _ _).mp hok
    subst hs₂
    have hl := closeLotUpd_lot s lotId
    unfold closeLot
    rw [hl]
    dsimp only
    rw [if_neg hcur, if_neg (by simp [hsender]), if_pos rfl]

theorem lifecycle_flags_monotonic_witness :
    (w5.lots 1).closed = true ∧
    ((w5.lots 1).closed = true ∧ (w5.lots 1).revealRequested = true) ∧
    closeLot w4 5 1 = .error .AuctionClosed :=
  ⟨((lifecycle_flags_monotonic w4 w5 reachable_w4
      (Step.settle w4 w5 9 1 0 5 11 rfl)).1 1).1 (by decide),
   (lifecycle_flags_monotonic w5 w6 reachable_w5
      (Step.updateGw w5 w6 7 9 rfl)).2.1 1 (by decide),
   (lifecycle_flags_monotonic w3 w4 reachable_w3
      (Step.close w3 w4 5 1 rfl)).2.2 5 1 w4 rfl⟩

/-- C7: once a lot is closed, no successful transaction from a
reachable state ever changes its `encryptedWinningBid` or
`encryptedWinningIndex`, and `submitBid` targeting it is rejected with
`AuctionClosed` (given an existing lot and a nonzero salt, the checks
that run before the closed-check). -/
theorem winning_frozen_after_close (s s' : ContractState)
    (hr : Reachable s) (hstep : Step s s') (lotId : Nat)
    (hclosed : (s.lots lotId).closed = true) :
    ((s'.lots lotId).encryptedWinningBid =
      (s.lots lotId).encryptedWinningBid ∧
     (s'.lots lotId).encryptedWinningIndex =
      (s.lots lotId).encryptedWinningIndex) ∧
    (∀ sender now v salt, (s.lots lotId).curator ≠ 0 → salt ≠ 0 →
      submitBid s sender now lotId v salt = .error .AuctionClosed) := by
  have hInv := reachable_inv s hr
  constructor
  · cases hstep with
    | create sender now m st et rv lotId' h =>
      obtain ⟨-, -, hs', -⟩ := (createLot_ok_iff _ _ _ _ _ _ _ _ _).mp h
      subst hs'
      by_cases he : lotId = s.nextLotId
      · have hd := hInv.fresh s.nextLotId (le_refl _)
        rw [he, hd] at hclosed
        exact absurd hclosed (by simp [defaultLot])
      · rw [createLotUpd_lot_other _ _ _ _ _ _ _ he]
        exact ⟨rfl, rfl⟩
    | submit sender now lotId' v salt h =>
      obtain ⟨-, -, hcl, -, -, -, -, hs'⟩ :=
        (submitBid_ok_iff _ _ _ _ _ _ _).mp h
      subst hs'
      by_cases he : lotId = lotId'
      · rw [← he, hclosed] at hcl
        cases hcl
      · rw [submitBidUpd_lot_other _ _ _ _ _ _ _ he]
        exact ⟨rfl, rfl⟩
    | close sender lotId' h =>
      obtain ⟨-, -, hcl, -, -, hs'⟩ := (closeLot_ok_iff _ _ _ _).mp h
      subst hs'
      by_cases he : lotId = lotId'
      · rw [← he, hclosed] at hcl
        cases hcl
      · rw [closeLotUpd_lot_other _ _ _ he]
        exact ⟨rfl, rfl⟩
    | settle sender lotId' wi cb bd h =>
      obtain ⟨-, -, -, -, -, -, -, hs'⟩ :=
        (settleReveal_ok_iff _ _ _ _ _ _ _).mp h
      subst hs'
      by_cases he : lotId = lotId'
      · subst he
        rw [settleRevealUpd_lot]
        exact ⟨rfl, rfl⟩
      · rw [settleRevealUpd_lot_other _ _ _ _ _ he]
        exact ⟨rfl, rfl⟩
    | updateGw sender newOp h =>
      obtain ⟨-, hs'⟩ := (updateGatewayOperator_ok_iff _ _ _ _).mp h
      subst hs'
      exact ⟨rfl, rfl⟩
  · intro sender now v salt hcur hsalt
    unfold submitBid
    dsimp only
    rw [if_neg hcur, if_neg hsalt, if_pos hclosed]

theorem winning_frozen_after_close_witness :
    ((w5.lots 1).encryptedWinningBid =
      (w4.lots 1).encryptedWinningBid ∧
     (w5.lots 1).encryptedWinningIndex =
      (w4.lots 1).encryptedWinningIndex) ∧
    submitBid w4 12 15 1 7 4 = .error .AuctionClosed :=
  ⟨(winning_frozen_after_close w4 w5 reachable_w4
      (Step.settle w4 w5 9 1 0 5 11 rfl) 1 (by decide)).1,
   (winning_frozen_after_close w4 w5 reachable_w4
      (Step.settle w4 w5 9 1 0 5 11 rfl) 1 (by decide)).2
     12 15 7 4 (by decide) (by decide)⟩

/-- C9 (implicit): in every reachable state, `closed` equals
`revealRequested` for every lot; consequently `closeLot` can never
fail with `RevealAlreadyRequested` and `settleReveal` can never fail
with `RevealNotRequested` from a reachable state. -/
theorem closed_iff_revealRequested (s : ContractState)
    (hr : Reachable s) :
    (∀ lotId,
      (s.lots lotId).closed = (s.lots lotId).revealRequested) ∧
    (∀ sender lotId,
      closeLot s sender lotId ≠ .error .RevealAlreadyRequested) ∧
    (∀ sender lotId wi cb bd,
      settleReveal s sender lotId wi cb bd ≠
        .error .RevealNotRequested) := by
  have hInv := reachable_inv s hr
  refine ⟨hInv.flagsEq, ?_, ?_⟩
  · intro sender lotId h
    unfold closeLot at h
    dsimp only at h
    split_ifs at h with h1 h2 h3 h4 h5 <;> try simp at h
    rw [← hInv.flagsEq lotId] at h5
    exact h3 h5
  · intro sender lotId wi cb bd h
    unfold settleReveal at h
    dsimp only at h
    split_ifs at h with h1 h2 h3 h4 h5 h6 <;> try simp at h
    rw [hInv.flagsEq lotId] at h3
    exact h5 h3

theorem closed_iff_revealRequested_witness :
    (w4.lots 1).closed = (w4.lots 1).revealRequested ∧
    closeLot w4 5 1 ≠ .error .RevealAlreadyRequested ∧
    settleReveal w4 9 1 0 5 11 ≠ .error .RevealNotRequested :=
  ⟨(closed_iff_revealRequested w4 reachable_w4).1 1,
   (closed_iff_revealRequested w4 reachable_w4).2.1 5 1,
   (closed_iff_revealRequested w4 reachable_w4).2.2 9 1 0 5 11⟩

/-- C1: after any nonempty sequence of successful `submitBid` calls on
a fresh lot with (cleartext-modelled) values `v0, …, vn`, the lot's
`encryptedWinningBid` is the maximum of the submitted values (it is a
submitted value and dominates all of them) and `encryptedWinningIndex`
is the smallest index attaining it: it is in range, points at the
winning value, and every strictly earlier bid is strictly smaller —
ties keep the earlier bid because the comparison is strict. -/
theorem running_max_correct (s s' : ContractState) (lotId now : Nat)
    (bids : List (Nat × Nat × Nat))
    (h0 : (s.lots lotId).bidCount = 0) (hne : bids ≠ [])
    (hrun : runBids s lotId now bids = .ok s') :
    (s'.lots lotId).encryptedWinningBid ∈
      bids.map (fun b => b.2.1) ∧
    (∀ v ∈ bids.map (fun b => b.2.1),
      v ≤ (s'.lots lotId).encryptedWinningBid) ∧
    (s'.lots lotId).encryptedWinningIndex < bids.length ∧
    (bids.map (fun b => b.2.1)).getD
        (s'.lots lotId).encryptedWinningIndex 0 =
      (s'.lots lotId).encryptedWinningBid ∧
    (∀ j, j < (s'.lots lotId).encryptedWinningIndex →
      (bids.map (fun b => b.2.1)).getD j 0 <
        (s'.lots lotId).encryptedWinningBid) := by
  obtain ⟨-, hpair⟩ := runBids_ok bids s s' lotId now hrun
  rw [h0] at hpair
  obtain ⟨v, rest, hcons⟩ : ∃ v rest,
      bids.map (fun b => b.2.1) = v :: rest := by
    cases hb : bids with
    | nil => exact absurd hb hne
    | cons b l => exact ⟨b.2.1, l.map (fun b => b.2.1), by simp [hb]⟩
  rw [hcons] at hpair
  have hzero : foldWin 0 (s.lots lotId).encryptedWinningBid
      (s.lots lotId).encryptedWinningIndex (v :: rest) =
      foldWin 1 v 0 rest := by
    simp [foldWin, winStep_zero]
  rw [hzero] at hpair
  have hwb : (s'.lots lotId).encryptedWinningBid =
      (foldWin 1 v 0 rest).1 := congrArg Prod.fst hpair
  have hwi : (s'.lots lotId).encryptedWinningIndex =
      (foldWin 1 v 0 rest).2 := congrArg Prod.snd hpair
  have hwin := winInv_foldWin rest [v] v 0 (by simp) (winInv_single v)
  simp only [List.length_singleton, List.singleton_append] at hwin
  obtain ⟨hlt, hat, hub, hstrict⟩ := hwin
  rw [← hcons] at hlt hat hub hstrict
  have hlen : bids.length = (bids.map (fun b => b.2.1)).length := by
    simp
  refine ⟨?_, ?_, ?_, ?_, ?_⟩
  · rw [hwb, ← hat, ← hwi]
    rw [List.getD_eq_getElem _ _ (hwi ▸ hlt)]
    exact List.getElem_mem _
  · intro x hx
    rw [hwb]
    exact hub x hx
  · rw [hwi, hlen]
    exact hlt
  · rw [hwb, hwi]
    exact hat
  · intro j hj
    rw [hwb]
    exact hstrict j (hwi ▸ hj)

theorem running_max_correct_witness :
    (wA.lots 1).encryptedWinningBid ∈ cbids.map (fun b => b.2.1) ∧
    (wA.lots 1).encryptedWinningIndex < cbids.length ∧
    (cbids.map (fun b => b.2.1)).getD
        (wA.lots 1).encryptedWinningIndex 0 =
      (wA.lots 1).encryptedWinningBid := by
  have h := running_max_correct w2 wA 1 15 cbids (by decide)
    (by decide) rfl
  exact ⟨h.1, h.2.2.1, h.2.2.2.1⟩

end BlindBidAuction
